import Mathlib

/-!
# SIVI validator — verification of the finding identity, categorization,
# grouping, status-lifecycle and session engine

Shallow embedding of the pure data-transformation core of
`src/frontend/app.js` (the SIVI AFD validation-review frontend), together
with proofs relating it to its natural-language specification.

Modelling conventions:
* JS strings are `String`; a field that may be absent (`undefined`) and is
  only ever used through a `|| ''` fallback is modelled as a `String` whose
  absence is the empty string.  Fields used through explicit null checks
  are modelled as `Option`.
* The mutable `findingStatuses` object is an association list
  `List (String × Status)`; JS object indexing with a default
  (`findingStatuses[id] || STATUS_OPEN`) becomes `statusOf`.
* JS objects used as insertion-ordered maps (`groups`, `statusCounts`)
  are association lists built in insertion order, which matches the
  ECMAScript enumeration order for string keys.
* `Array.prototype.sort` (stable since ES2019) is modelled by
  `List.mergeSort`, which is stable.
* JS `array.forEach((x, i) => ...)` index bookkeeping is made explicit by
  `withIndexFrom 0`; the JS code recovers original indices via the
  reference-based `allFindings.indexOf(finding)`, which for the distinct
  objects produced by JSON parsing is exactly the original position, so
  the embedding carries that position alongside each finding.
-/

namespace Sivi

/-- The four review statuses (`STATUS_OPEN` … `STATUS_OPGELOST` in `app.js`). -/
inductive Status where
  | OPEN
  | GEACCEPTEERD
  | GENEGEERD
  | OPGELOST
deriving DecidableEq, Repr, Inhabited

/-- The string value of a status constant, as stored in `findingStatuses`
and compared against the status filter value. -/
def Status.toStr : Status → String
  | .OPEN => "OPEN"
  | .GEACCEPTEERD => "GEACCEPTEERD"
  | .GENEGEERD => "GENEGEERD"
  | .OPGELOST => "OPGELOST"

/-- A validation finding as consumed from the validator's JSON result.
Fields that `app.js` only reads through `|| ''` fallbacks are plain
strings with `""` standing for an absent field. -/
structure Finding where
  criticality : String := ""
  severity : String := ""
  engine : String := ""
  code : String := ""
  contract : String := ""
  entiteit : String := ""
  label : String := ""
  waarde : String := ""
  verwacht : String := ""
  omschrijving : String := ""
  bron : String := ""
deriving DecidableEq, Repr, Inhabited

/-- JS `finding.criticality || 'AANDACHT'`. -/
def effCriticality (f : Finding) : String :=
  if f.criticality = "" then "AANDACHT" else f.criticality

/-- JS `String.prototype.toLowerCase`, implemented structurally on the
character list so that it evaluates inside the kernel. -/
def toLowerS (s : String) : String := ⟨s.data.map Char.toLower⟩

/-- JS `String.prototype.trim`, implemented structurally on the
character list. -/
def trimS (s : String) : String :=
  ⟨((s.data.dropWhile Char.isWhitespace).reverse.dropWhile Char.isWhitespace).reverse⟩

/-- JS `str.split(c)` for a single-character separator, implemented
structurally on the character list. -/
def splitOnChar (c : Char) : List Char → List (List Char)
  | [] => [[]]
  | x :: t =>
    let r := splitOnChar c t
    if x = c then [] :: r
    else
      match r with
      | [] => [[x]]
      | h :: t' => (x :: h) :: t'

/-- The label with its first underscore-delimited token stripped:
`finding.label ? finding.label.split('_').slice(1).join('_') : ''`. -/
def labelSuffix (label : String) : String :=
  if label = "" then ""
  else
    String.intercalate "_"
      (((splitOnChar '_' label.data).map (fun l => (⟨l⟩ : String))).drop 1)

/-- JS `generateFindingId` (app.js:1508): the positional finding identity
`contract:entiteit:code:labelSuffix:index`. -/
def generateFindingId (f : Finding) (index : Nat) : String :=
  f.contract ++ ":" ++ f.entiteit ++ ":" ++ f.code ++ ":" ++
    labelSuffix f.label ++ ":" ++ Nat.repr index

/-- JS `getBulkKey` (app.js:1513): the coarser cross-contract identity
`code:labelSuffix`. -/
def getBulkKey (f : Finding) : String :=
  f.code ++ ":" ++ labelSuffix f.label

/-- JS `getGroupKey` (app.js:809): the grouping key
`code|labelSuffix|omschrijving`. -/
def getGroupKey (f : Finding) : String :=
  f.code ++ "|" ++ labelSuffix f.label ++ "|" ++ f.omschrijving

/-- Substring test on character lists: does `hay` start with `pat`? -/
def startsWithList : List Char → List Char → Bool
  | _, [] => true
  | [], _ :: _ => false
  | h :: t, p :: ps => h = p && startsWithList t ps

/-- Substring containment on character lists (JS `String.prototype.includes`). -/
def containsSub : List Char → List Char → Bool
  | [], pat => pat.isEmpty
  | h :: t, pat => startsWithList (h :: t) pat || containsSub t pat

/-- JS `hay.includes(pat)`. -/
def strContains (hay pat : String) : Bool :=
  containsSub hay.data pat.data

/-- JS `categorizeFinding` (app.js:787): classify a finding as
`'ontbrekend'` (missing) or `'inhoudelijk'` (content error). -/
def categorizeFinding (f : Finding) : String :=
  let waarde := toLowerS (trimS f.waarde)
  let omschrijving := toLowerS f.omschrijving
  if waarde = "" ∨ waarde = "0" ∨ waarde = "0.00" ∨ waarde = "0,00" ∨
      waarde = "null" ∨ waarde = "undefined" then
    "ontbrekend"
  else if strContains omschrijving "ontbreekt" || strContains omschrijving "ontbrekend" ||
      strContains omschrijving "leeg" || strContains omschrijving "niet ingevuld" ||
      strContains omschrijving "verplicht" || strContains omschrijving "missing" then
    "ontbrekend"
  else
    "inhoudelijk"

/-- JS `getThema` (app.js:819): fixed lookup from error code to theme,
defaulting to `'overig'`. -/
def getThema (f : Finding) : String :=
  let code := f.code
  if code = "E1-006" then "structuur"
  else if code = "E1-008" then "structuur"
  else if code = "E2-004" then "structuur"
  else if code = "E1-001" then "labels"
  else if code = "E1-005" then "labels"
  else if code = "E1-007" then "labels"
  else if code = "E1-002" then "codes"
  else if code = "E1-009" then "codes"
  else if code = "E1-003" then "format"
  else if code = "E1-004" then "format"
  else if code = "E1-010" then "format"
  else if code = "E2-007" then "format"
  else if code = "E2-002" then "premie"
  else if code = "E2-005" then "premie"
  else if code = "E2-010" then "premie"
  else if code = "E2-006" then "datums"
  else if code = "E2-014" then "datums"
  else if code = "E2-013" then "branche"
  else if code = "E2-016" then "branche"
  else if code = "E2-017" then "branche"
  else if code = "E2-008" then "validatie"
  else if code = "E2-011" then "validatie"
  else "overig"

/-- JS `getThemaSortOrder` (app.js:894): fixed sort ranks 1..9, unknown
themes rank 99 (`sortOrder[thema] || 99`). -/
def getThemaSortOrder (thema : String) : Nat :=
  if thema = "structuur" then 1
  else if thema = "labels" then 2
  else if thema = "codes" then 3
  else if thema = "format" then 4
  else if thema = "premie" then 5
  else if thema = "datums" then 6
  else if thema = "branche" then 7
  else if thema = "validatie" then 8
  else if thema = "overig" then 9
  else 99

/-- The mutable `findingStatuses` map, `FindingId -> Status`. -/
abbrev StatusMap := List (String × Status)

/-- JS `findingStatuses[id] || STATUS_OPEN`. -/
def statusOf (m : StatusMap) (id : String) : Status :=
  (m.lookup id).getD .OPEN

/-- JS object assignment `findingStatuses[id] = s`: overwrite the existing
entry (every occurrence of the key, which for first-lookup semantics is
equivalent to overwriting the first), or append a fresh entry. -/
def setStatus (m : StatusMap) (id : String) (s : Status) : StatusMap :=
  if (m.lookup id).isSome then
    m.map (fun p => if p.1 = id then (id, s) else p)
  else
    m ++ [(id, s)]

/-- Explicit pairing of list elements with their positions, for
`array.forEach((x, i) => ...)` and `array.filter((x, i) => ...)`. -/
def withIndexFrom (i : Nat) : List α → List (Nat × α)
  | [] => []
  | a :: t => (i, a) :: withIndexFrom (i + 1) t

/-! ## Dominant-status computation (app.js:1271 and app.js:1288)

A JS object used as a counter (`statusCounts[s] = (statusCounts[s] || 0) + 1`)
is an insertion-ordered association list; `bumpCount` is one increment. -/

/-- One step of `statusCounts[s] = (statusCounts[s] || 0) + 1`: increment
the first entry for `s`, or append a fresh `(s, 1)` entry. -/
def bumpCount : List (Status × Nat) → Status → List (Status × Nat)
  | [], s => [(s, 1)]
  | (t, c) :: rest, s =>
    if t = s then (t, c + 1) :: rest else (t, c) :: bumpCount rest s

/-- The insertion-ordered status counter built by a left-to-right loop. -/
def buildStatusCounts (l : List Status) : List (Status × Nat) :=
  l.foldl bumpCount []

/-- JS `statusCounts[s] || 0` (reading a counter that may lack the key). -/
def lookupCount (counts : List (Status × Nat)) (s : Status) : Nat :=
  (counts.lookup s).getD 0

/-- JS `Object.entries(statusCounts).sort((a, b) => b[1] - a[1])[0][0]`:
the first key attaining the maximal count.  JS `sort` is stable, so the
head of the descending sort is the first entry (in insertion order) whose
count is never strictly exceeded later; a single left fold that replaces
the current best only on a strictly greater count computes exactly that
entry. -/
def pickMostFrequent : List (Status × Nat) → Status
  | [] => .OPEN
  | p :: rest =>
    (rest.foldl (fun best q => if q.2 > best.2 then q else best) p).1

/-- JS `getThemaDominantStatus` (app.js:1271): dominant status from a
pre-accumulated status counter. -/
def getThemaDominantStatus (statusCounts : List (Status × Nat)) : Status :=
  match statusCounts with
  | [] => .OPEN
  | [(s, _)] => s
  | _ =>
    if lookupCount statusCounts .OPEN > 0 then .OPEN
    else pickMostFrequent statusCounts

/-- JS `getGroupDominantStatus` (app.js:1288): dominant status of a group,
counting `findingStatuses[f.findingId] || STATUS_OPEN` over its members. -/
def getGroupDominantStatus (m : StatusMap) (memberIds : List String) : Status :=
  let statusCounts := memberIds.foldl (fun acc fid => bumpCount acc (statusOf m fid)) []
  match statusCounts with
  | [(s, _)] => s
  | _ =>
    if lookupCount statusCounts .OPEN > 0 then .OPEN
    else pickMostFrequent statusCounts

/-! ### Specification-side dominant status

These definitions follow the words of the spec (§4.5): distinct statuses,
"any member is OPEN", and "the most frequent remaining status; ties are
broken by first-encountered order when counting". -/

/-- The distinct elements of a list, in order of first occurrence. -/
def distinctFirst : List Status → List Status
  | [] => []
  | s :: rest => s :: (distinctFirst rest).filter (fun t => t ≠ s)

/-- The maximal value of `cnt` over a candidate list. -/
def maxCntOver (cnt : Status → Nat) (d : List Status) : Nat :=
  (d.map cnt).foldl Nat.max 0

/-- Modelled from the spec: "the most frequent remaining status; ties are
broken by first-encountered order when counting" — the first status, in
order of first occurrence, whose multiplicity attains the maximum. -/
def mostFrequentFirst (l : List Status) : Status :=
  let d := distinctFirst l
  ((d.find? (fun s => l.count s = maxCntOver (fun t => l.count t) d)).getD .OPEN)

/-- A left fold keeping the first strict maximum of `cnt`, mirroring the
head of a stable descending sort. -/
def firstMaxAux (cnt : Status → Nat) : Status → List Status → Status
  | best, [] => best
  | best, x :: rest => firstMaxAux cnt (if cnt x > cnt best then x else best) rest

/-- Modelled from the spec (§4.5): the dominant-status rule as written. -/
def dominantSpec (l : List Status) : Status :=
  match distinctFirst l with
  | [s] => s
  | _ => if .OPEN ∈ l then .OPEN else mostFrequentFirst l

/-! ## Filtering (app.js:542) and the grouped rendering pipeline -/

/-- The five filter controls read by `filterFindings` (app.js:542). -/
structure Filters where
  criticality : String := "all"
  status : String := "all"
  severity : String := "all"
  engine : String := "all"
  search : String := ""
deriving DecidableEq, Repr, Inhabited

/-- The space-joined lower-cased search haystack of a finding
(`searchFields`, app.js:570): non-empty fields only (`filter(Boolean)`). -/
def searchHaystack (f : Finding) : String :=
  toLowerS (String.intercalate " "
    (([f.code, f.contract, f.entiteit, f.label, f.waarde,
       f.omschrijving, f.verwacht, f.bron]).filter (fun s => s ≠ "")))

/-- The predicate of `allFindings.filter((finding, index) => ...)`
inside `filterFindings` (app.js:549). -/
def matchesFilters (flt : Filters) (m : StatusMap) (i : Nat) (f : Finding) : Bool :=
  let criticality := effCriticality f
  let fid := generateFindingId f i
  let st := statusOf m fid
  let searchValue := trimS (toLowerS flt.search)
  (flt.criticality == "all" || criticality == flt.criticality) &&
  (flt.status == "all" || st.toStr == flt.status) &&
  (flt.severity == "all" || f.severity == flt.severity) &&
  (flt.engine == "all" || f.engine == flt.engine) &&
  (searchValue == "" || strContains (searchHaystack f) searchValue)

/-- JS `filterFindings` (app.js:542), with each finding's original position
carried explicitly (recovered in JS by `allFindings.indexOf`). -/
def filterFindings (fs : List Finding) (flt : Filters) (m : StatusMap) :
    List (Nat × Finding) :=
  (withIndexFrom 0 fs).filter (fun p => matchesFilters flt m p.1 p.2)

/-- The category filter applied between the generic filter and grouping
(app.js:1106 and app.js:1456). -/
def categoryFiltered (fs : List Finding) (flt : Filters) (m : StatusMap)
    (currentCategory : String) : List (Nat × Finding) :=
  (filterFindings fs flt m).filter
    (fun p => currentCategory == "all" || categorizeFinding p.2 == currentCategory)

/-- A member entry pushed into `group.findings` (app.js:937):
`{...finding, findingId, originalIndex}`. -/
structure GroupMember where
  findingId : String
  originalIndex : Nat
  finding : Finding
deriving DecidableEq, Repr

/-- A finding group (app.js:921): representative attributes from the
first member plus the ordered member list. -/
structure Group where
  key : String
  code : String
  label : String
  omschrijving : String
  severity : String
  criticality : String
  category : String
  entiteit : String
  engine : String
  thema : String
  findings : List GroupMember
deriving DecidableEq, Repr

/-- The fresh group created for a key's first finding, already holding
that finding as its first member. -/
def mkGroup (i : Nat) (f : Finding) : Group :=
  { key := getGroupKey f
    code := f.code
    label := f.label
    omschrijving := f.omschrijving
    severity := f.severity
    criticality := effCriticality f
    category := categorizeFinding f
    entiteit := f.entiteit
    engine := f.engine
    thema := getThema f
    findings := [⟨generateFindingId f i, i, f⟩] }

/-- Push a member onto the group carrying `key` (JS
`groups[groupKey].findings.push(...)`); object keys are unique, so this
updates the first — and only — matching group. -/
def addToGroup (key : String) (mem : GroupMember) : List Group → List Group
  | [] => []
  | g :: gs =>
    if g.key == key then { g with findings := g.findings ++ [mem] } :: gs
    else g :: addToGroup key mem gs

/-- One iteration of the `findings.forEach` loop in `groupFindings`
(app.js:915): create the group on first encounter of its key, then push
the member. -/
def addFinding (acc : List Group) (i : Nat) (f : Finding) : List Group :=
  let key := getGroupKey f
  if acc.any (fun g => g.key == key) then
    addToGroup key ⟨generateFindingId f i, i, f⟩ acc
  else
    acc ++ [mkGroup i f]

/-- JS `groupFindings` (app.js:912) on an index-carrying finding list; the
groups appear in first-encounter order (`Object.values` enumeration
order). -/
def groupFindings (l : List (Nat × Finding)) : List Group :=
  l.foldl (fun acc p => addFinding acc p.1 p.2) []

/-- The comparator of app.js:1115 as a boolean "may come before": theme
sort rank ascending, then member count descending. -/
def groupLE (a b : Group) : Bool :=
  let oa := getThemaSortOrder a.thema
  let ob := getThemaSortOrder b.thema
  if oa == ob then decide (b.findings.length ≤ a.findings.length)
  else decide (oa < ob)

/-- JS `sortedGroups` (app.js:1115): a stable sort by `groupLE`. -/
def sortGroups (gs : List Group) : List Group :=
  gs.mergeSort groupLE

/-- The group list rendered by `renderFindingGroups` (app.js:1099):
generic filters, then category filter, then grouping, then sorting. -/
def sortedGroupsPipeline (fs : List Finding) (flt : Filters) (m : StatusMap)
    (currentCategory : String) : List Group :=
  sortGroups (groupFindings (categoryFiltered fs flt m currentCategory))

/-- The per-theme slice of the `themaStats` accumulation (app.js:1137):
walk the sorted groups and count member statuses of the groups carrying
the given theme. -/
def themaStatusCounts (sorted : List Group) (m : StatusMap) (thema : String) :
    List (Status × Nat) :=
  sorted.foldl
    (fun acc g =>
      if g.thema == thema then
        g.findings.foldl (fun acc mem => bumpCount acc (statusOf m mem.findingId)) acc
      else acc)
    []

/-- The theme dominant status as displayed by `renderFindingGroups`
(app.js:1159): `getThemaDominantStatus(themaStats[thema]?.statuses || {})`. -/
def themaDominantPipeline (fs : List Finding) (flt : Filters) (m : StatusMap)
    (currentCategory : String) (thema : String) : Status :=
  getThemaDominantStatus
    (themaStatusCounts (sortedGroupsPipeline fs flt m currentCategory) m thema)

/-- JS `applyGroupStatusChange` (app.js:1454): recompute the filtered,
category-filtered, grouped view; if the key names a group there, set every
member's status, else do nothing. -/
def applyGroupStatusChange (fs : List Finding) (flt : Filters)
    (currentCategory : String) (m : StatusMap) (groupKey : String)
    (newStatus : Status) : StatusMap :=
  let groups := groupFindings (categoryFiltered fs flt m currentCategory)
  match groups.find? (fun g => g.key == groupKey) with
  | none => m
  | some g =>
    g.findings.foldl (fun m mem => setStatus m mem.findingId newStatus) m

/-! ## Bulk propagation (app.js:1579 and app.js:1592) -/

/-- An entry of the `similar` list built by `findSimilarFindings`
(app.js:1600): `{findingId, finding, index}`. -/
structure SimilarFinding where
  findingId : String
  finding : Finding
  index : Nat
deriving DecidableEq, Repr

/-- JS `findSimilarFindings` (app.js:1592): all findings other than the one
being edited (by id) that share the bulk key and are currently OPEN. -/
def findSimilarFindings (fs : List Finding) (m : StatusMap)
    (bulkKey excludeFindingId : String) : List SimilarFinding :=
  (withIndexFrom 0 fs).filterMap (fun p =>
    let fid := generateFindingId p.2 p.1
    if fid ≠ excludeFindingId ∧ getBulkKey p.2 = bulkKey ∧ statusOf m fid = .OPEN
    then some ⟨fid, p.2, p.1⟩
    else none)

/-- The outcome of `handleStatusChange` (app.js:1579): either show the
bulk confirmation modal with the similar findings, or apply directly. -/
inductive StatusChangeAction where
  | showModal (similar : List SimilarFinding)
  | applyDirect
deriving DecidableEq, Repr

/-- JS `handleStatusChange` (app.js:1579): the `Idle → PendingConfirmation`
decision for a single-finding status edit routed through the bulk
propagator.  Only the table view's status selects (app.js:533, inside
`renderFindingsTable`, a view the code marks "kept for reference/future
use" and never renders) call it. -/
def handleStatusChange (fs : List Finding) (m : StatusMap)
    (findingId : String) (newStatus : Status) (bulkKey : String) :
    StatusChangeAction :=
  if newStatus = .GEACCEPTEERD ∨ newStatus = .GENEGEERD then
    let similarFindings := findSimilarFindings fs m bulkKey findingId
    if similarFindings.length > 0 then .showModal similarFindings
    else .applyDirect
  else .applyDirect

/-- JS `applyStatusChange` (app.js:1608) restricted to its status-map
effect: write the entry (the rest of the function is persistence and DOM
class updates). -/
def applyStatusChange (m : StatusMap) (findingId : String)
    (newStatus : Status) : StatusMap :=
  setStatus m findingId newStatus

/-- The grouped view's individual status-change listener
(`attachGroupEventListeners`, app.js:1399): it calls `applyStatusChange`
directly — never `handleStatusChange` — so a single-finding edit made in
the grouped detail view mutates the store at once, with no confirmation
step on this path. -/
def detailStatusChange (m : StatusMap) (findingId : String)
    (newStatus : Status) : StatusMap :=
  applyStatusChange m findingId newStatus

/-- First finding of the C2 counterexample: OPEN, sharing its bulk key
with `bulkFinding₂`. -/
def bulkFinding₁ : Finding := { code := "E1-001", contract := "K1" }

/-- Second finding of the C2 counterexample: also OPEN, same bulk key. -/
def bulkFinding₂ : Finding := { code := "E1-001", contract := "K2" }

/-! ## Session codec (app.js:2006 and app.js:2056) -/

/-- The validation result as far as the session/state code inspects it;
its remaining JSON payload is opaque to this core and is carried whole. -/
structure ValidationResult where
  findings : List Finding
  timestamp : String := ""
  metadataFileName : String := ""
deriving DecidableEq, Repr, Inhabited

/-- The mutable frontend state touched by the session codec. -/
structure AppState where
  validationResult : Option ValidationResult := none
  allFindings : List Finding := []
  findingStatuses : StatusMap := []
  originalXmlContent : Option String := none
  selectedFileName : Option String := none
  fileValidationId : Option String := none
  currentCategory : String := "all"
deriving DecidableEq, Repr, Inhabited

/-- A parsed session object (`{version, type, timestamp, fileName,
validationResult, findingStatuses, xmlContent}`); `Option` marks fields a
raw session file may lack. -/
structure SessionData where
  version : Nat := 1
  type : String := ""
  timestamp : String := ""
  fileName : String := ""
  validationResult : Option ValidationResult := none
  findingStatuses : Option StatusMap := none
  xmlContent : Option String := none
deriving DecidableEq, Repr, Inhabited

/-- The truthiness fallback chain for the exported file name
(app.js:2016): `selectedFile?.name || metadata?.file_name || 'unknown.xml'`. -/
def sessionFileName (st : AppState) (vr : ValidationResult) : String :=
  match st.selectedFileName with
  | some n => if n ≠ "" then n
              else if vr.metadataFileName ≠ "" then vr.metadataFileName
              else "unknown.xml"
  | none => if vr.metadataFileName ≠ "" then vr.metadataFileName
            else "unknown.xml"

/-- JS `downloadSession` (app.js:2006) up to serialization: the session
object it builds, or `none` when there is no validation result (the JS
shows an error and returns).  `now` stands for `new Date().toISOString()`.
`xmlContent` is `originalXmlContent || null`, so an empty string document
is exported as `null`. -/
def downloadSession (st : AppState) (now : String) : Option SessionData :=
  match st.validationResult with
  | none => none
  | some vr =>
    some { version := 1
           type := "sivi-session"
           timestamp := now
           fileName := sessionFileName st vr
           validationResult := some vr
           findingStatuses := some st.findingStatuses
           xmlContent := match st.originalXmlContent with
                         | some s => if s = "" then none else some s
                         | none => none }

/-- JS `loadSession` (app.js:2056): reject (returning the state unchanged)
on a wrong `type` tag or a missing `validationResult`; otherwise replace
the active result, findings, status map and source document. -/
def loadSession (st : AppState) (session : SessionData) : AppState :=
  if session.type ≠ "sivi-session" then st
  else
    match session.validationResult with
    | none => st
    | some vr =>
      { st with
        validationResult := some vr
        allFindings := vr.findings
        findingStatuses := session.findingStatuses.getD []
        originalXmlContent := match session.xmlContent with
                              | some s => if s = "" then none else some s
                              | none => none
        selectedFileName := some (if session.fileName ≠ "" then session.fileName
                                  else "Geladen sessie")
        fileValidationId := some (session.fileName ++ "-" ++
          (if vr.timestamp ≠ "" then vr.timestamp else session.timestamp))
        currentCategory := "all" }

/-! ## Persistence adapter (app.js:1530 and app.js:1547) -/

/-- A parsed storage envelope `{version, fileName, validationTimestamp,
statuses}`; `Option` marks fields the stored JSON may lack. -/
structure StorageEnvelope where
  version : Option Nat := none
  fileName : String := ""
  validationTimestamp : String := ""
  statuses : Option StatusMap := none
deriving DecidableEq, Repr, Inhabited

/-- What `localStorage.getItem` + `JSON.parse` can yield: no entry,
unparseable JSON (the `catch` path), or a parsed envelope. -/
inductive StoredValue where
  | absent
  | malformed
  | parsed (env : StorageEnvelope)
deriving DecidableEq, Repr

/-- JS `loadStatusesFromStorage` (app.js:1547) as a function of the prior
in-memory store: nothing stored keeps the prior store; a parsed envelope
replaces it only when `version === 1` and `statuses` is present; the
`catch` branch (malformed JSON) resets it to empty and logs. -/
def loadStatusesFromStorage (prior : StatusMap) (sv : StoredValue) : StatusMap :=
  match sv with
  | .absent => prior
  | .malformed => []
  | .parsed env =>
    if env.version = some 1 then
      match env.statuses with
      | some sts => sts
      | none => prior
    else prior

/-! ## Specification-side categorizer (§4.2 of the spec) -/

/-- Modelled from the spec (§4.2): the categorization rule as written —
trimmed case-folded `waarde` in the fixed value set, else any of the
fixed substrings in the case-folded `omschrijving`, else content error. -/
def categorizeSpec (f : Finding) : String :=
  if toLowerS (trimS f.waarde) ∈
      (["", "0", "0.00", "0,00", "null", "undefined"] : List String) then
    "ontbrekend"
  else if (["ontbreekt", "ontbrekend", "leeg", "niet ingevuld", "verplicht",
      "missing"] : List String).any
      (fun pat => strContains (toLowerS f.omschrijving) pat) then
    "ontbrekend"
  else
    "inhoudelijk"

/-- A string not containing the `|` separator of group keys. -/
def pipeFree (s : String) : Prop := ('|' : Char) ∉ s.data

instance (s : String) : Decidable (pipeFree s) := by
  unfold pipeFree
  infer_instance

/-- The statuses of all members of the groups carrying a theme, in group
order — the status multiset a theme header aggregates. -/
def groupMemberStatuses (m : StatusMap) (thema : String) (gs : List Group) :
    List Status :=
  (gs.filter (fun g => g.thema == thema)).flatMap
    (fun g => g.findings.map (fun mem => statusOf m mem.findingId))

/-- First finding of the C3 counterexample: a content-error (`waarde`
present) premium finding, already dispositioned. -/
def c3finding₁ : Finding :=
  { code := "E2-002", omschrijving := "mismatch", waarde := "12", contract := "K1" }

/-- Second finding of the C3 counterexample: a missing-value (`waarde`
empty) premium finding, still OPEN. -/
def c3finding₂ : Finding :=
  { code := "E2-002", omschrijving := "mismatch", waarde := "", contract := "K2" }

/-- Status map of the C3 counterexample: the first finding accepted. -/
def c3statuses : StatusMap := [(generateFindingId c3finding₁ 0, .GEACCEPTEERD)]

/-- A string not containing the `:` separator of finding ids and bulk keys. -/
def colonFree (s : String) : Prop := (':' : Char) ∉ s.data

instance (s : String) : Decidable (colonFree s) := by
  unfold colonFree; infer_instance

/-- Concrete findings witnessing that a `:` inside a field makes two
distinct identity tuples collide. -/
def collidingFinding₁ : Finding := { contract := "a:b", entiteit := "c" }

/-- Second half of the colliding pair: the colon moved between fields. -/
def collidingFinding₂ : Finding := { contract := "a", entiteit := "b:c" }

end Sivi

namespace Sivi

/-! # Theorems -/

/-! ## Decimal numerals: no `:` and injective -/

theorem digitChar_mod10_ne_colon (n : Nat) : Nat.digitChar (n % 10) ≠ ':' := by
  have h : n % 10 < 10 := Nat.mod_lt _ (by norm_num)
  set k := n % 10 with hk
  interval_cases k <;> decide

theorem toDigitsCore_ne_colon :
    ∀ (fuel n : Nat) (ds : List Char), (∀ c ∈ ds, c ≠ ':') →
      ∀ c ∈ Nat.toDigitsCore 10 fuel n ds, c ≠ ':' := by
  intro fuel
  induction fuel with
  | zero => intro n ds h c hc; exact h c hc
  | succ fuel ih =>
    intro n ds h c hc
    simp only [Nat.toDigitsCore] at hc
    split at hc
    · rcases List.mem_cons.mp hc with rfl | hmem
      · exact digitChar_mod10_ne_colon _
      · exact h c hmem
    · refine ih _ _ ?_ c hc
      intro c' hc'
      rcases List.mem_cons.mp hc' with rfl | hmem
      · exact digitChar_mod10_ne_colon _
      · exact h c' hmem

theorem repr_ne_colon (n : Nat) : (':' : Char) ∉ (Nat.repr n).data := by
  intro hmem
  exact toDigitsCore_ne_colon (n + 1) n [] (by simp) ':' hmem rfl

theorem toDigitsCore_append :
    ∀ (fuel n : Nat) (ds : List Char),
      Nat.toDigitsCore 10 fuel n ds = Nat.toDigitsCore 10 fuel n [] ++ ds := by
  intro fuel
  induction fuel with
  | zero => intro n ds; simp [Nat.toDigitsCore]
  | succ fuel ih =>
    intro n ds
    simp only [Nat.toDigitsCore]
    split
    · rfl
    · rw [ih (n / 10) (Nat.digitChar (n % 10) :: ds),
        ih (n / 10) [Nat.digitChar (n % 10)], List.append_assoc]
      rfl

/-- Reading a decimal digit string back into a number. -/
def chListVal (l : List Char) : Nat :=
  l.foldl (fun a c => 10 * a + (c.toNat - 48)) 0

theorem digitVal_digitChar (k : Nat) (h : k < 10) :
    (Nat.digitChar k).toNat - 48 = k := by
  interval_cases k <;> decide

theorem chListVal_toDigitsCore :
    ∀ (fuel n : Nat), n < fuel → chListVal (Nat.toDigitsCore 10 fuel n []) = n := by
  intro fuel
  induction fuel with
  | zero => intro n h; omega
  | succ fuel ih =>
    intro n h
    simp only [Nat.toDigitsCore]
    split
    · next hdiv =>
      have hn : n < 10 := (Nat.div_eq_zero_iff (by norm_num)).mp hdiv
      have : n % 10 = n := Nat.mod_eq_of_lt hn
      simp [chListVal, this, digitVal_digitChar n hn]
    · next hdiv =>
      have hn10 : 10 ≤ n := by
        by_contra hlt
        exact hdiv ((Nat.div_eq_zero_iff (by norm_num)).mpr (by omega))
      have hrec : n / 10 < fuel := by
        have := Nat.div_lt_self (by omega : 0 < n) (by norm_num : 1 < 10)
        omega
      rw [toDigitsCore_append]
      have hmod : n % 10 < 10 := Nat.mod_lt _ (by norm_num)
      simp only [chListVal, List.foldl_append, List.foldl_cons, List.foldl_nil]
      have hih := ih (n / 10) hrec
      simp only [chListVal] at hih
      rw [hih, digitVal_digitChar _ hmod]
      have := Nat.div_add_mod n 10
      omega

theorem natRepr_injective {m n : Nat} (h : Nat.repr m = Nat.repr n) : m = n := by
  have hd : Nat.toDigits 10 m = Nat.toDigits 10 n := by
    have := congrArg String.data h
    simpa [Nat.repr, List.asString] using this
  have hm := chListVal_toDigitsCore (m + 1) m (Nat.lt_succ_self m)
  have hn := chListVal_toDigitsCore (n + 1) n (Nat.lt_succ_self n)
  simp only [Nat.toDigits] at hd
  rw [← hm, ← hn, hd]

/-! ## Separator splitting -/

theorem append_sep_inj {c : Char} :
    ∀ {a₁ a₂ r₁ r₂ : List Char}, c ∉ a₁ → c ∉ a₂ →
      a₁ ++ c :: r₁ = a₂ ++ c :: r₂ → a₁ = a₂ ∧ r₁ = r₂ := by
  intro a₁
  induction a₁ with
  | nil =>
    intro a₂ r₁ r₂ _ h₂ h
    cases a₂ with
    | nil => simpa using h
    | cons b t =>
      exfalso
      simp only [List.nil_append, List.cons_append, List.cons.injEq] at h
      exact h₂ (h.1 ▸ List.mem_cons_self b t)
  | cons a t ih =>
    intro a₂ r₁ r₂ h₁ h₂ h
    cases a₂ with
    | nil =>
      exfalso
      simp only [List.nil_append, List.cons_append, List.cons.injEq] at h
      exact h₁ (h.1 ▸ List.mem_cons_self a t)
    | cons b t₂ =>
      simp only [List.cons_append, List.cons.injEq] at h
      obtain ⟨rfl, h⟩ := h
      have := ih (fun hm => h₁ (List.mem_cons_of_mem _ hm))
        (fun hm => h₂ (List.mem_cons_of_mem _ hm)) h
      exact ⟨by rw [this.1], this.2⟩

/-! ## C4: finding-id structure and injectivity -/

/-- C4 counterexample: `generateFindingId` is not injective over
`(contract, entiteit, code, labelSuffix, index)` tuples — a `:` inside a
field lets two distinct tuples produce the same id string. -/
theorem generateFindingId_collision :
    generateFindingId collidingFinding₁ 0 = generateFindingId collidingFinding₂ 0 ∧
      collidingFinding₁.contract ≠ collidingFinding₂.contract := by
  constructor
  · decide
  · decide

/-- C4 (amended): `deriveFindingId` is deterministic, returns
`contract:entiteit:code:labelSuffix:index`, and is injective over
`(contract, entiteit, code, labelSuffix, index)` tuples whose string
components contain no `:`. -/
theorem generateFindingId_injective_of_colonFree
    (f₁ f₂ : Finding) (i₁ i₂ : Nat)
    (hc₁ : colonFree f₁.contract) (he₁ : colonFree f₁.entiteit)
    (hk₁ : colonFree f₁.code) (hl₁ : colonFree (labelSuffix f₁.label))
    (hc₂ : colonFree f₂.contract) (he₂ : colonFree f₂.entiteit)
    (hk₂ : colonFree f₂.code) (hl₂ : colonFree (labelSuffix f₂.label))
    (h : generateFindingId f₁ i₁ = generateFindingId f₂ i₂) :
    f₁.contract = f₂.contract ∧ f₁.entiteit = f₂.entiteit ∧
      f₁.code = f₂.code ∧ labelSuffix f₁.label = labelSuffix f₂.label ∧
      i₁ = i₂ := by
  have hd := congrArg String.data h
  simp only [generateFindingId, String.data_append,
    show (":" : String).data = [':'] from rfl, List.append_assoc,
    List.singleton_append] at hd
  obtain ⟨e₁, hd⟩ := append_sep_inj hc₁ hc₂ hd
  obtain ⟨e₂, hd⟩ := append_sep_inj he₁ he₂ hd
  obtain ⟨e₃, hd⟩ := append_sep_inj hk₁ hk₂ hd
  obtain ⟨e₄, hd⟩ := append_sep_inj hl₁ hl₂ hd
  refine ⟨String.ext e₁, String.ext e₂, String.ext e₃, String.ext e₄, ?_⟩
  exact natRepr_injective (String.ext hd)

/-- C4 witness: the amended injectivity applied at concrete colon-free
inputs. -/
theorem generateFindingId_injective_of_colonFree_witness :
    ({ contract := "K1", entiteit := "PP", code := "E2-002" } : Finding).contract =
      ({ contract := "K1", entiteit := "PP", code := "E2-002" } : Finding).contract ∧
      (7 : Nat) = 7 := by
  have := generateFindingId_injective_of_colonFree
    { contract := "K1", entiteit := "PP", code := "E2-002" }
    { contract := "K1", entiteit := "PP", code := "E2-002" }
    7 7 (by decide) (by decide) (by decide) (by decide)
    (by decide) (by decide) (by decide) (by decide) rfl
  exact ⟨this.1, this.2.2.2.2⟩

/-- C5: for every finding, the categorizer applies the spec's rules in
order with first match winning: value in the missing-value set, else a
missing-indicator substring of the description, else content error;
absent fields are the empty string and the function is total. -/
theorem categorizeFinding_eq_spec (f : Finding) :
    categorizeFinding f = categorizeSpec f := by
  unfold categorizeFinding categorizeSpec
  simp only [List.mem_cons, List.not_mem_nil, or_false, List.any_cons,
    List.any_nil, Bool.or_eq_true, Bool.or_false]
  split_ifs <;> first | rfl | tauto

/-! ## Indexed traversal -/

theorem mem_withIndexFrom {l : List α} :
    ∀ {i : Nat} {k : Nat} {a : α},
      (k, a) ∈ withIndexFrom i l ↔ ∃ j, k = i + j ∧ l[j]? = some a := by
  induction l with
  | nil => intro i k a; simp [withIndexFrom]
  | cons x t ih =>
    intro i k a
    simp only [withIndexFrom, List.mem_cons, Prod.mk.injEq, ih]
    constructor
    · rintro (⟨rfl, rfl⟩ | ⟨j, rfl, hj⟩)
      · exact ⟨0, by omega, by simp⟩
      · exact ⟨j + 1, by omega, by simpa using hj⟩
    · rintro ⟨j, rfl, hj⟩
      cases j with
      | zero => left; simp only [List.getElem?_cons_zero, Option.some.injEq] at hj
                exact ⟨by omega, hj.symm⟩
      | succ j => right; exact ⟨j, by omega, by simpa using hj⟩

/-! ## C8: session import rejection leaves the state untouched -/

/-- C8: for every raw session input whose `type` is not `"sivi-session"`
or whose `validationResult` is absent, the import performs no state
mutation: the validation result, finding list, status map and source
document are all unchanged. -/
theorem loadSession_reject_no_mutation (st : AppState) (session : SessionData)
    (h : session.type ≠ "sivi-session" ∨ session.validationResult = none) :
    (loadSession st session).validationResult = st.validationResult ∧
      (loadSession st session).allFindings = st.allFindings ∧
      (loadSession st session).findingStatuses = st.findingStatuses ∧
      (loadSession st session).originalXmlContent = st.originalXmlContent := by
  have hst : loadSession st session = st := by
    unfold loadSession
    rcases h with h | h
    · simp [h]
    · by_cases ht : session.type ≠ "sivi-session"
      · simp [ht]
      · simp [ht, h]
  rw [hst]
  exact ⟨rfl, rfl, rfl, rfl⟩

/-- C8 witness: a wrong-type session leaves a concrete state unchanged. -/
theorem loadSession_reject_no_mutation_witness :
    (({ type := "wrong", validationResult := some { findings := [] } } :
        SessionData).type ≠ "sivi-session" ∨
      ({ type := "wrong", validationResult := some { findings := [] } } :
        SessionData).validationResult = none) ∧
    (loadSession
        { findingStatuses := [("x", .GENEGEERD)], originalXmlContent := some "<a/>" }
        { type := "wrong", validationResult := some { findings := [] } }).findingStatuses =
      ({ findingStatuses := [("x", .GENEGEERD)],
         originalXmlContent := some "<a/>" } : AppState).findingStatuses := by
  refine ⟨Or.inl (by decide), ?_⟩
  exact (loadSession_reject_no_mutation
    { findingStatuses := [("x", .GENEGEERD)], originalXmlContent := some "<a/>" }
    { type := "wrong", validationResult := some { findings := [] } }
    (Or.inl (by decide))).2.2.1

/-! ## C9: persisted-store loading -/

/-- C9 counterexample: an envelope whose `version` is not 1 is not
"treated as an empty store" — the prior in-memory store is kept, which
differs from the empty store whenever the prior store is non-empty (and
differs from the malformed-JSON branch, which does reset to empty). -/
theorem loadStatusesFromStorage_keeps_prior :
    loadStatusesFromStorage [("a", .GEACCEPTEERD)]
        (.parsed { version := some 2, statuses := some [("b", .OPGELOST)] }) =
      [("a", .GEACCEPTEERD)] ∧
    ([("a", Status.GEACCEPTEERD)] : StatusMap) ≠ [] := by
  exact ⟨rfl, by decide⟩

/-- C9 (amended): loading never raises (it is total); a parsed envelope
whose `version` is not 1 or whose `statuses` is absent is ignored — the
store behaves exactly as when nothing is stored, keeping its prior
in-memory contents (the empty store in the fresh-load flow); malformed
JSON resets the store to empty with a diagnostic logged; a version-1
envelope with statuses present replaces the store. -/
theorem loadStatusesFromStorage_cases (prior : StatusMap) (env : StorageEnvelope) :
    (env.version ≠ some 1 ∨ env.statuses = none →
      loadStatusesFromStorage prior (.parsed env) =
        loadStatusesFromStorage prior .absent) ∧
    loadStatusesFromStorage prior .malformed = [] ∧
    (∀ sts, env.version = some 1 → env.statuses = some sts →
      loadStatusesFromStorage prior (.parsed env) = sts) := by
  refine ⟨?_, rfl, ?_⟩
  · intro h
    unfold loadStatusesFromStorage
    rcases h with h | h
    · simp [h]
    · by_cases hv : env.version = some 1
      · simp [hv, h]
      · simp [hv]
  · intro sts hv hs
    unfold loadStatusesFromStorage
    simp [hv, hs]

/-- C9 witness: the amended behavior at concrete inputs. -/
theorem loadStatusesFromStorage_cases_witness :
    (({ version := some 2, statuses := some [] } : StorageEnvelope).version ≠ some 1 ∨
      ({ version := some 2, statuses := some [] } : StorageEnvelope).statuses = none) ∧
    loadStatusesFromStorage [("a", .OPGELOST)]
        (.parsed { version := some 2, statuses := some [] }) =
      loadStatusesFromStorage [("a", .OPGELOST)] .absent := by
  refine ⟨Or.inl (by decide), ?_⟩
  exact (loadStatusesFromStorage_cases [("a", .OPGELOST)]
    { version := some 2, statuses := some [] }).1 (Or.inl (by decide))

/-! ## C7: session round trip -/

/-- C7 counterexample: an empty-string source document does not survive
the round trip — `downloadSession` exports `originalXmlContent || null`,
so the restored document is `null`, not `""`. -/
theorem sessionRoundTrip_empty_doc :
    ((downloadSession
        { validationResult := some { findings := [] },
          originalXmlContent := some "" } "T").map
      (fun sess => (loadSession {} sess).originalXmlContent)) = some none ∧
    (some "" : Option String) ≠ none := by
  exact ⟨rfl, by decide⟩

/-- C7 (amended): importing the session produced by exporting reproduces
the validation result and the status map exactly, and the source document
exactly whenever it is not the empty string (an empty-string document is
exported as `null` and restored as `null`). -/
theorem sessionRoundTrip (st st₀ : AppState) (now : String) (vr : ValidationResult)
    (h : st.validationResult = some vr) (hx : st.originalXmlContent ≠ some "") :
    ∃ sess, downloadSession st now = some sess ∧
      (loadSession st₀ sess).validationResult = some vr ∧
      (loadSession st₀ sess).findingStatuses = st.findingStatuses ∧
      (loadSession st₀ sess).originalXmlContent = st.originalXmlContent ∧
      (loadSession st₀ sess).allFindings = vr.findings := by
  unfold downloadSession
  rw [h]
  refine ⟨_, rfl, ?_⟩
  unfold loadSession
  simp only [ne_eq]
  norm_num
  cases hoc : st.originalXmlContent with
  | none => simp
  | some s =>
    have hs : s ≠ "" := by
      intro hs0
      exact hx (by rw [hoc, hs0])
    simp [hs]

/-! ## C2: bulk-propagation trigger -/

theorem mem_findSimilarFindings_sound {fs : List Finding} {m : StatusMap}
    {bk fid : String} {e : SimilarFinding}
    (he : e ∈ findSimilarFindings fs m bk fid) :
    fs[e.index]? = some e.finding ∧
      e.findingId = generateFindingId e.finding e.index ∧
      e.findingId ≠ fid ∧ getBulkKey e.finding = bk ∧
      statusOf m e.findingId = .OPEN := by
  unfold findSimilarFindings at he
  obtain ⟨p, hp, hfe⟩ := List.mem_filterMap.mp he
  obtain ⟨k, f⟩ := p
  dsimp only at hfe
  split at hfe
  · next hcond =>
    obtain ⟨h₁, h₂, h₃⟩ := hcond
    obtain rfl : (⟨generateFindingId f k, f, k⟩ : SimilarFinding) = e :=
      Option.some.inj hfe
    obtain ⟨j, hj, hget⟩ := mem_withIndexFrom.mp hp
    simp only [Nat.zero_add] at hj
    subst hj
    exact ⟨hget, rfl, h₁, h₂, h₃⟩
  · exact absurd hfe (by simp)

theorem findSimilarFindings_ne_nil_iff {fs : List Finding} {m : StatusMap}
    {bk fid : String} :
    findSimilarFindings fs m bk fid ≠ [] ↔
      ∃ i f, fs[i]? = some f ∧ generateFindingId f i ≠ fid ∧
        getBulkKey f = bk ∧ statusOf m (generateFindingId f i) = .OPEN := by
  constructor
  · intro hne
    obtain ⟨e, he⟩ := List.exists_mem_of_ne_nil _ hne
    obtain ⟨hget, hid, hne', hbk, hst⟩ := mem_findSimilarFindings_sound he
    exact ⟨e.index, e.finding, hget, hid ▸ hne', hbk, hid ▸ hst⟩
  · rintro ⟨i, f, hget, hne', hbk, hst⟩
    apply List.ne_nil_of_mem (a := (⟨generateFindingId f i, f, i⟩ : SimilarFinding))
    unfold findSimilarFindings
    refine List.mem_filterMap.mpr ⟨(i, f), mem_withIndexFrom.mpr ⟨i, by omega, hget⟩, ?_⟩
    simp only [if_pos (And.intro hne' (And.intro hbk hst))]

/-- C2 counterexample: a single-finding status edit made in the live
grouped view is not routed through the bulk propagator.  With two OPEN
findings sharing a bulk key, setting the first to GENEGEERD satisfies
the claimed trigger condition — `handleStatusChange` would open the
confirmation, as the first conjunct computes — yet the grouped view's
listener (`detailStatusChange`, app.js:1399) applies the edit at once:
the edited finding is already GENEGEERD and the similar OPEN finding
untouched, with no `PendingConfirmation` step on this path. -/
theorem groupedView_edit_bypasses_confirmation :
    handleStatusChange [bulkFinding₁, bulkFinding₂] []
        (generateFindingId bulkFinding₁ 0) .GENEGEERD (getBulkKey bulkFinding₁) =
      .showModal [⟨generateFindingId bulkFinding₂ 1, bulkFinding₂, 1⟩] ∧
    (detailStatusChange [] (generateFindingId bulkFinding₁ 0) .GENEGEERD).lookup
        (generateFindingId bulkFinding₁ 0) = some .GENEGEERD ∧
    statusOf (detailStatusChange [] (generateFindingId bulkFinding₁ 0) .GENEGEERD)
      (generateFindingId bulkFinding₂ 1) = .OPEN := by
  refine ⟨by decide, by decide, by decide⟩

/-- C2 (amended): for every single-finding status edit routed through
`handleStatusChange` — the bulk propagator's entry point, wired only to
the (legacy, unrendered) table view — the confirmation is triggered
exactly when the new status is GEACCEPTEERD or GENEGEERD (never for OPEN
or OPGELOST) and at least one other finding (by id) sharing the bulk key
is currently OPEN; every reported similar finding is distinct from the
edited one, currently OPEN, and shares the bulk key, so dispositioned
findings are never touched by an apply-to-all.  Single-finding edits
made in the live grouped detail view bypass the confirmation entirely:
their effect is the unconditional store write. -/
theorem handleStatusChange_spec (fs : List Finding) (m : StatusMap)
    (fid : String) (ns : Status) (bk : String) :
    ((∃ sim, handleStatusChange fs m fid ns bk = .showModal sim) ↔
      ((ns = .GEACCEPTEERD ∨ ns = .GENEGEERD) ∧
        ∃ i f, fs[i]? = some f ∧ generateFindingId f i ≠ fid ∧
          getBulkKey f = bk ∧ statusOf m (generateFindingId f i) = .OPEN)) ∧
    (∀ e ∈ findSimilarFindings fs m bk fid,
      e.findingId ≠ fid ∧ statusOf m e.findingId = .OPEN ∧
      getBulkKey e.finding = bk ∧ fs[e.index]? = some e.finding ∧
      e.findingId = generateFindingId e.finding e.index) ∧
    (∀ (m' : StatusMap) (fid' : String) (ns' : Status),
      detailStatusChange m' fid' ns' = setStatus m' fid' ns') := by
  refine ⟨?_, ?_, fun m' fid' ns' => rfl⟩
  · unfold handleStatusChange
    by_cases hns : ns = .GEACCEPTEERD ∨ ns = .GENEGEERD
    · simp only [if_pos hns]
      by_cases hlen : (findSimilarFindings fs m bk fid).length > 0
      · simp only [if_pos hlen]
        constructor
        · intro _
          refine ⟨hns, findSimilarFindings_ne_nil_iff.mp ?_⟩
          intro hnil
          rw [hnil] at hlen
          simp at hlen
        · intro _
          exact ⟨_, rfl⟩
      · simp only [if_neg hlen]
        constructor
        · rintro ⟨sim, hsim⟩
          exact absurd hsim (by simp)
        · rintro ⟨-, hex⟩
          exfalso
          have := findSimilarFindings_ne_nil_iff.mpr hex
          exact hlen (List.length_pos_of_ne_nil this)
    · simp only [if_neg hns]
      constructor
      · rintro ⟨sim, hsim⟩
        exact absurd hsim (by simp)
      · rintro ⟨h, -⟩
        exact absurd h hns
  · intro e he
    obtain ⟨hget, hid, hne', hbk, hst⟩ := mem_findSimilarFindings_sound he
    exact ⟨hne', hst, hbk, hget, hid⟩

/-- C2 witness: with two findings sharing a bulk key and both OPEN,
an edit routed through `handleStatusChange` triggers the confirmation. -/
theorem handleStatusChange_spec_witness :
    ∃ sim,
      handleStatusChange
          [{ code := "E1-001", contract := "K1" }, { code := "E1-001", contract := "K2" }]
          [] (generateFindingId { code := "E1-001", contract := "K1" } 0)
          .GENEGEERD (getBulkKey { code := "E1-001", contract := "K1" }) =
        .showModal sim := by
  refine (handleStatusChange_spec
      [{ code := "E1-001", contract := "K1" }, { code := "E1-001", contract := "K2" }]
      [] (generateFindingId { code := "E1-001", contract := "K1" } 0)
      .GENEGEERD (getBulkKey { code := "E1-001", contract := "K1" })).1.mpr ?_
  refine ⟨Or.inr rfl, 1, { code := "E1-001", contract := "K2" }, by simp, ?_, ?_, ?_⟩
  · decide
  · decide
  · rfl

/-- C7 witness: the amended round trip at a concrete state. -/
theorem sessionRoundTrip_witness :
    ({ validationResult := some { findings := [] },
       originalXmlContent := some "<a/>" } : AppState).validationResult =
      some { findings := [] } ∧
    ∃ sess,
      downloadSession
          { validationResult := some { findings := [] },
            originalXmlContent := some "<a/>" } "T" = some sess ∧
        (loadSession {} sess).originalXmlContent = some "<a/>" := by
  refine ⟨rfl, ?_⟩
  obtain ⟨sess, h1, _, _, h4, _⟩ := sessionRoundTrip
    { validationResult := some { findings := [] }, originalXmlContent := some "<a/>" }
    {} "T" { findings := [] } rfl (by decide)
  exact ⟨sess, h1, h4⟩

/-! ## Arithmetic helpers for `Nat.max` -/

theorem natMax_assoc (a b c : Nat) : Nat.max (Nat.max a b) c = Nat.max a (Nat.max b c) := by
  simp only [Nat.max_def]
  split_ifs <;> omega

theorem natMax_comm (a b : Nat) : Nat.max a b = Nat.max b a := by
  simp only [Nat.max_def]
  split_ifs <;> omega

theorem le_natMax_left (a b : Nat) : a ≤ Nat.max a b := by
  simp only [Nat.max_def]
  split_ifs <;> omega

theorem le_natMax_right (a b : Nat) : b ≤ Nat.max a b := by
  simp only [Nat.max_def]
  split_ifs <;> omega

theorem natMax_eq_right {a b : Nat} (h : a ≤ b) : Nat.max a b = b := by
  simp [Nat.max_def, h]

theorem natMax_eq_left {a b : Nat} (h : b ≤ a) : Nat.max a b = a := by
  simp only [Nat.max_def]
  split_ifs <;> omega

/-! ## Status counters: relating the insertion-ordered counter object to
multiset counts -/

theorem mem_distinctFirst {x : Status} : ∀ {l : List Status}, x ∈ distinctFirst l ↔ x ∈ l := by
  intro l
  induction l with
  | nil => simp [distinctFirst]
  | cons s rest ih =>
    simp only [distinctFirst, List.mem_cons, List.mem_filter, ih, decide_eq_true_eq]
    constructor
    · rintro (rfl | ⟨hmem, -⟩)
      · exact Or.inl rfl
      · exact Or.inr hmem
    · rintro (rfl | hmem)
      · exact Or.inl rfl
      · by_cases hx : x = s
        · exact Or.inl hx
        · exact Or.inr ⟨hmem, by simpa using hx⟩

theorem nodup_distinctFirst : ∀ (l : List Status), (distinctFirst l).Nodup := by
  intro l
  induction l with
  | nil => simp [distinctFirst]
  | cons s rest ih =>
    simp only [distinctFirst, List.nodup_cons]
    refine ⟨?_, ih.filter _⟩
    intro hmem
    have := (List.mem_filter.mp hmem).2
    simp at this

theorem distinctFirst_ne_nil {l : List Status} (h : l ≠ []) : distinctFirst l ≠ [] := by
  cases l with
  | nil => exact absurd rfl h
  | cons s rest => simp [distinctFirst]

theorem distinctFirst_append_singleton (l : List Status) (a : Status) :
    distinctFirst (l ++ [a]) =
      if a ∈ l then distinctFirst l else distinctFirst l ++ [a] := by
  induction l with
  | nil => simp [distinctFirst]
  | cons x t ih =>
    rw [List.cons_append]
    show x :: (distinctFirst (t ++ [a])).filter (fun s => s ≠ x) = _
    rw [ih]
    by_cases hat : a ∈ t
    · rw [if_pos hat, if_pos (List.mem_cons_of_mem _ hat)]
      rfl
    · rw [if_neg hat]
      by_cases hax : a = x
      · subst hax
        rw [if_pos (List.mem_cons_self _ _), List.filter_append]
        simp [distinctFirst]
      · rw [if_neg (by simp [hax, hat]), List.filter_append]
        simp only [List.filter_cons, List.filter_nil]
        rw [if_pos (by simpa using hax)]
        rfl

theorem bumpCount_of_mem (cnt : Status → Nat) (a : Status) :
    ∀ (d : List Status), d.Nodup → a ∈ d →
      bumpCount (d.map (fun s => (s, cnt s))) a =
        d.map (fun s => (s, if s = a then cnt s + 1 else cnt s)) := by
  intro d
  induction d with
  | nil => intro _ h; simp at h
  | cons s d' ih =>
    intro hnd hmem
    simp only [List.map_cons, bumpCount]
    by_cases hsa : s = a
    · subst hsa
      rw [if_pos rfl, if_pos rfl]
      congr 1
      have hno : s ∉ d' := (List.nodup_cons.mp hnd).1
      refine (List.map_congr_left ?_).symm
      intro x hx
      have : x ≠ s := by
        rintro rfl
        exact hno hx
      simp [this]
    · rw [if_neg hsa, if_neg hsa]
      have hmem' : a ∈ d' := by
        rcases List.mem_cons.mp hmem with h | h
        · exact absurd h.symm hsa
        · exact h
      rw [ih (List.nodup_cons.mp hnd).2 hmem']

theorem bumpCount_of_not_mem (cnt : Status → Nat) (a : Status) :
    ∀ (d : List Status), a ∉ d →
      bumpCount (d.map (fun s => (s, cnt s))) a =
        d.map (fun s => (s, cnt s)) ++ [(a, 1)] := by
  intro d
  induction d with
  | nil => intro _; simp [bumpCount]
  | cons s d' ih =>
    intro hmem
    have hsa : s ≠ a := fun h => hmem (h ▸ List.mem_cons_self s d')
    simp only [List.map_cons, bumpCount, if_neg hsa, List.cons_append]
    rw [ih (fun h => hmem (List.mem_cons_of_mem _ h))]

/-- The central characterization: the insertion-ordered counter built by
the JS loop is the first-occurrence list of distinct statuses paired with
their total multiplicities. -/
theorem buildStatusCounts_eq (l : List Status) :
    buildStatusCounts l = (distinctFirst l).map (fun s => (s, l.count s)) := by
  induction l using List.reverseRecOn with
  | nil => simp [buildStatusCounts, distinctFirst]
  | append_singleton l a ih =>
    have hfold : buildStatusCounts (l ++ [a]) = bumpCount (buildStatusCounts l) a := by
      simp [buildStatusCounts, List.foldl_append]
    rw [hfold, ih, distinctFirst_append_singleton]
    by_cases hmem : a ∈ l
    · rw [if_pos hmem,
        bumpCount_of_mem _ _ _ (nodup_distinctFirst l) (mem_distinctFirst.mpr hmem)]
      refine List.map_congr_left ?_
      intro x hx
      simp only [List.count_append, List.count_singleton]
      by_cases hxa : x = a
      · subst hxa; simp
      · simp [hxa, beq_iff_eq, Ne.symm hxa]
    · rw [if_neg hmem,
        bumpCount_of_not_mem _ _ _ (fun h => hmem (mem_distinctFirst.mp h))]
      rw [List.map_append]
      congr 1
      · refine List.map_congr_left ?_
        intro x hx
        have hxa : x ≠ a := by
          rintro rfl
          exact hmem (mem_distinctFirst.mp hx)
        simp [List.count_append, List.count_singleton, beq_iff_eq, Ne.symm hxa]
      · have : l.count a = 0 := List.count_eq_zero.mpr hmem
        simp [List.count_append, this]

theorem lookup_map_count {cnt : Status → Nat} {t : Status} :
    ∀ {d : List Status},
      (d.map (fun s => (s, cnt s))).lookup t = if t ∈ d then some (cnt t) else none := by
  intro d
  induction d with
  | nil => simp
  | cons s d' ih =>
    by_cases hts : t = s
    · subst hts
      simp [List.lookup]
    · have hbeq : (t == s) = false := by simp [hts]
      simp only [List.map_cons, List.lookup, hbeq, ih]
      by_cases hmem : t ∈ d'
      · simp [hmem, hts]
      · simp [hmem, hts]

theorem lookupCount_buildStatusCounts (l : List Status) (t : Status) :
    lookupCount (buildStatusCounts l) t = l.count t := by
  rw [lookupCount, buildStatusCounts_eq, lookup_map_count]
  by_cases hmem : t ∈ l
  · simp [mem_distinctFirst, hmem]
  · simp [mem_distinctFirst, hmem, List.count_eq_zero.mpr hmem]

/-! ## The tie-break fold equals "first status attaining the maximum" -/

theorem pickMostFrequent_map (cnt : Status → Nat) :
    ∀ (d : List Status) (b : Status),
      (d.map (fun s => (s, cnt s))).foldl
          (fun best q => if q.2 > best.2 then q else best) (b, cnt b) =
        (firstMaxAux cnt b d, cnt (firstMaxAux cnt b d)) := by
  intro d
  induction d with
  | nil => intro b; simp [firstMaxAux]
  | cons x rest ih =>
    intro b
    simp only [List.map_cons, List.foldl_cons, firstMaxAux]
    by_cases h : cnt x > cnt b
    · rw [if_pos h, if_pos h, ih x]
    · rw [if_neg h, if_neg h, ih b]

theorem foldl_max_init (l : List Nat) :
    ∀ (a b : Nat), l.foldl Nat.max (Nat.max a b) = Nat.max a (l.foldl Nat.max b) := by
  induction l with
  | nil => intro a b; simp
  | cons x t ih =>
    intro a b
    simp only [List.foldl_cons]
    rw [natMax_assoc, ih]

theorem maxCntOver_cons (cnt : Status → Nat) (x : Status) (d : List Status) :
    maxCntOver cnt (x :: d) = Nat.max (cnt x) (maxCntOver cnt d) := by
  simp only [maxCntOver, List.map_cons, List.foldl_cons]
  rw [show Nat.max 0 (cnt x) = Nat.max (cnt x) 0 from natMax_comm _ _, foldl_max_init]

theorem le_maxCntOver (cnt : Status → Nat) :
    ∀ (d : List Status) (x : Status), x ∈ d → cnt x ≤ maxCntOver cnt d := by
  intro d
  induction d with
  | nil => intro x h; simp at h
  | cons y t ih =>
    intro x hx
    rw [maxCntOver_cons]
    rcases List.mem_cons.mp hx with rfl | hmem
    · exact le_natMax_left _ _
    · exact Nat.le_trans (ih x hmem) (le_natMax_right _ _)

theorem firstMaxAux_find (cnt : Status → Nat) :
    ∀ (d : List Status) (b : Status),
      (b :: d).find? (fun s => decide (cnt s = maxCntOver cnt (b :: d))) =
        some (firstMaxAux cnt b d) := by
  intro d
  induction d with
  | nil =>
    intro b
    have hmax : maxCntOver cnt [b] = cnt b := by
      simp [maxCntOver]
    rw [hmax]
    simp [firstMaxAux]
  | cons x rest ih =>
    intro b
    by_cases hxb : cnt x > cnt b
    · have hstep : firstMaxAux cnt b (x :: rest) = firstMaxAux cnt x rest := by
        simp [firstMaxAux, hxb]
      have hxle : cnt x ≤ maxCntOver cnt (x :: rest) :=
        le_maxCntOver cnt _ x (List.mem_cons_self _ _)
      have habsorb : maxCntOver cnt (b :: x :: rest) = maxCntOver cnt (x :: rest) := by
        rw [maxCntOver_cons]
        exact natMax_eq_right (Nat.le_trans (Nat.le_of_lt hxb) hxle)
      have hbne : ¬(cnt b = maxCntOver cnt (b :: x :: rest)) := by
        rw [habsorb]
        omega
      rw [hstep, List.find?_cons_of_neg _ (by simpa using hbne), habsorb]
      exact ih x
    · have hstep : firstMaxAux cnt b (x :: rest) = firstMaxAux cnt b rest := by
        simp [firstMaxAux, hxb]
      have hxb' : cnt x ≤ cnt b := Nat.le_of_not_lt hxb
      have hM : maxCntOver cnt (b :: x :: rest) = maxCntOver cnt (b :: rest) := by
        rw [maxCntOver_cons, maxCntOver_cons, maxCntOver_cons, ← natMax_assoc,
          natMax_eq_left hxb']
      by_cases hb : cnt b = maxCntOver cnt (b :: x :: rest)
      · rw [List.find?_cons_of_pos _ (by simpa using hb)]
        have hb' : cnt b = maxCntOver cnt (b :: rest) := by rw [← hM]; exact hb
        have := ih b
        rw [List.find?_cons_of_pos _ (by simpa using hb')] at this
        rw [hstep, ← Option.some.inj this]
      · rw [List.find?_cons_of_neg _ (by simpa using hb)]
        have hbM : cnt b ≤ maxCntOver cnt (b :: x :: rest) :=
          le_maxCntOver cnt _ b (List.mem_cons_self _ _)
        have hxne : ¬(cnt x = maxCntOver cnt (b :: x :: rest)) := by omega
        rw [List.find?_cons_of_neg _ (by simpa using hxne)]
        have hb' : ¬(cnt b = maxCntOver cnt (b :: rest)) := by rw [← hM]; exact hb
        have := ih b
        rw [List.find?_cons_of_neg _ (by simpa using hb')] at this
        rw [hstep, ← this, hM]

/-! ## C1: the dominant-status algorithm -/

/-- C1: for every non-empty list of member statuses, both
`getGroupDominantStatus` and `getThemaDominantStatus` compute the spec's
dominant status: the unique status when only one is distinct, OPEN when
any member is OPEN, else the most frequent status with ties broken by
first-encountered order when counting. -/
theorem dominantStatus_matches_spec (m : StatusMap) (ids : List String)
    (h : ids ≠ []) :
    getGroupDominantStatus m ids = dominantSpec (ids.map (statusOf m)) ∧
      getThemaDominantStatus (buildStatusCounts (ids.map (statusOf m))) =
        dominantSpec (ids.map (statusOf m)) := by
  set l : List Status := ids.map (statusOf m) with hl
  have hlne : l ≠ [] := by
    simp only [hl, ne_eq, List.map_eq_nil_iff]
    exact h
  have hgroup : getGroupDominantStatus m ids =
      getThemaDominantStatus (buildStatusCounts l) := by
    unfold getGroupDominantStatus getThemaDominantStatus
    rw [show (ids.foldl (fun acc fid => bumpCount acc (statusOf m fid)) []) =
        buildStatusCounts l by
      rw [hl, buildStatusCounts, List.foldl_map]]
    rcases hc : buildStatusCounts l with - | ⟨p, tail⟩
    · exfalso
      have := buildStatusCounts_eq l
      rw [hc] at this
      have hdne := distinctFirst_ne_nil hlne
      cases hdf : distinctFirst l with
      | nil => exact hdne hdf
      | cons a d => rw [hdf] at this; simp at this
    · cases tail <;> rfl
  suffices hmain : getThemaDominantStatus (buildStatusCounts l) = dominantSpec l by
    exact ⟨hgroup.trans hmain, hmain⟩
  rw [buildStatusCounts_eq]
  unfold dominantSpec
  rcases hdf : distinctFirst l with - | ⟨a, d⟩
  · exact absurd hdf (distinctFirst_ne_nil hlne)
  · cases d with
    | nil => simp [getThemaDominantStatus]
    | cons b d' =>
      have hopen : lookupCount ((a :: b :: d').map fun s => (s, l.count s)) .OPEN > 0 ↔
          .OPEN ∈ l := by
        rw [lookupCount, lookup_map_count]
        by_cases hmem : Status.OPEN ∈ a :: b :: d'
        · have hmem' : Status.OPEN ∈ l := mem_distinctFirst.mp (hdf ▸ hmem)
          simp only [if_pos hmem, Option.getD_some]
          exact ⟨fun _ => hmem', fun _ => List.count_pos_iff.mpr hmem'⟩
        · have hmem2 : ¬(Status.OPEN = a ∨ Status.OPEN = b ∨ Status.OPEN ∈ d') := by
            simpa using hmem
          have hmem' : Status.OPEN ∉ l := fun hc => hmem (hdf ▸ mem_distinctFirst.mpr hc)
          simp [hmem2, hmem']
      show getThemaDominantStatus _ = _
      simp only [getThemaDominantStatus, List.map_cons]
      by_cases ho : Status.OPEN ∈ l
      · rw [if_pos (by
          have := hopen.mpr ho
          simpa using this), if_pos ho]
      · rw [if_neg (by
          intro hgt
          exact ho (by
            have : lookupCount ((a :: b :: d').map fun s => (s, l.count s)) .OPEN > 0 := by
              simpa using hgt
            exact hopen.mp this)), if_neg ho]
        show pickMostFrequent _ = mostFrequentFirst l
        unfold pickMostFrequent mostFrequentFirst
        dsimp only
        have hfold := pickMostFrequent_map (fun t => l.count t) (b :: d') a
        simp only [List.map_cons] at hfold ⊢
        rw [hfold, hdf, firstMaxAux_find (fun t => l.count t) (b :: d') a]
        rfl

/-- C1 witness: the dominant status of a concrete mixed status list. -/
theorem dominantStatus_matches_spec_witness :
    (["a", "b", "c"] : List String) ≠ [] ∧
      getGroupDominantStatus [("a", .GENEGEERD), ("b", .GEACCEPTEERD)] ["a", "b", "c"] =
        dominantSpec ((["a", "b", "c"] : List String).map
          (statusOf [("a", .GENEGEERD), ("b", .GEACCEPTEERD)])) := by
  refine ⟨by decide, ?_⟩
  exact (dominantStatus_matches_spec [("a", .GENEGEERD), ("b", .GEACCEPTEERD)]
    ["a", "b", "c"] (by decide)).1

/-! ## C6: group ordering -/

theorem groupLE_iff {a b : Group} :
    groupLE a b = true ↔
      (getThemaSortOrder a.thema < getThemaSortOrder b.thema ∨
        (getThemaSortOrder a.thema = getThemaSortOrder b.thema ∧
          b.findings.length ≤ a.findings.length)) := by
  unfold groupLE
  dsimp only
  by_cases h : getThemaSortOrder a.thema = getThemaSortOrder b.thema
  · rw [if_pos (by simp [h])]
    simp only [decide_eq_true_eq]
    constructor
    · intro hle
      exact Or.inr ⟨h, hle⟩
    · rintro (hlt | ⟨-, hle⟩)
      · exact absurd (h ▸ hlt) (lt_irrefl _)
      · exact hle
  · rw [if_neg (by simp [h])]
    simp only [decide_eq_true_eq]
    constructor
    · intro hlt
      exact Or.inl hlt
    · rintro (hlt | ⟨heq, -⟩)
      · exact hlt
      · exact absurd heq h

theorem groupLE_trans (a b c : Group) (hab : groupLE a b) (hbc : groupLE b c) :
    groupLE a c := by
  have h1 := groupLE_iff.mp hab
  have h2 := groupLE_iff.mp hbc
  rcases h1 with h1 | ⟨h1e, h1l⟩ <;> rcases h2 with h2 | ⟨h2e, h2l⟩
  · exact groupLE_iff.mpr (Or.inl (by omega))
  · exact groupLE_iff.mpr (Or.inl (by omega))
  · exact groupLE_iff.mpr (Or.inl (by omega))
  · exact groupLE_iff.mpr (Or.inr ⟨by omega, by omega⟩)

theorem groupLE_total (a b : Group) : groupLE a b || groupLE b a := by
  by_cases h : groupLE a b = true
  · simp [h]
  · have hn : ¬(getThemaSortOrder a.thema < getThemaSortOrder b.thema ∨
        (getThemaSortOrder a.thema = getThemaSortOrder b.thema ∧
          b.findings.length ≤ a.findings.length)) :=
      fun hh => h (groupLE_iff.mpr hh)
    have : groupLE b a = true := groupLE_iff.mpr (by omega)
    simp [this]

/-- C6: the rendered group list is ordered with theme sort rank ascending
as the primary key and member count descending as the secondary key; it
is a permutation of the groups of the filtered view; the rank table is
structuur=1 … overig=9 with unknown themes ranked 99. -/
theorem groupOrdering (fs : List Finding) (flt : Filters) (m : StatusMap)
    (cat : String) :
    List.Pairwise
      (fun a b =>
        getThemaSortOrder a.thema < getThemaSortOrder b.thema ∨
          (getThemaSortOrder a.thema = getThemaSortOrder b.thema ∧
            b.findings.length ≤ a.findings.length))
      (sortedGroupsPipeline fs flt m cat) ∧
    (sortedGroupsPipeline fs flt m cat).Perm
      (groupFindings (categoryFiltered fs flt m cat)) ∧
    (getThemaSortOrder "structuur" = 1 ∧ getThemaSortOrder "labels" = 2 ∧
      getThemaSortOrder "codes" = 3 ∧ getThemaSortOrder "format" = 4 ∧
      getThemaSortOrder "premie" = 5 ∧ getThemaSortOrder "datums" = 6 ∧
      getThemaSortOrder "branche" = 7 ∧ getThemaSortOrder "validatie" = 8 ∧
      getThemaSortOrder "overig" = 9) ∧
    (∀ t, t ∉ (["structuur", "labels", "codes", "format", "premie", "datums",
      "branche", "validatie", "overig"] : List String) →
      getThemaSortOrder t = 99) := by
  refine ⟨?_, ?_, by decide, ?_⟩
  · have hs := List.sorted_mergeSort groupLE_trans groupLE_total
      (groupFindings (categoryFiltered fs flt m cat))
    exact hs.imp (fun hab => groupLE_iff.mp hab)
  · exact List.mergeSort_perm _ _
  · intro t ht
    simp only [List.mem_cons, List.not_mem_nil, or_false, not_or] at ht
    obtain ⟨h1, h2, h3, h4, h5, h6, h7, h8, h9⟩ := ht
    simp [getThemaSortOrder, h1, h2, h3, h4, h5, h6, h7, h8, h9]

/-- C6 witness: an unknown theme is ranked 99. -/
theorem groupOrdering_witness :
    ("zzz" : String) ∉ (["structuur", "labels", "codes", "format", "premie",
      "datums", "branche", "validatie", "overig"] : List String) ∧
    getThemaSortOrder "zzz" = 99 :=
  ⟨by decide, (groupOrdering [] {} [] "all").2.2.2 "zzz" (by decide)⟩

/-! ## C10: frame property of the group bulk edit -/

theorem lookup_map_overwrite {j id : String} {s : Status} (hne : j ≠ id) :
    ∀ (t : StatusMap),
      (t.map (fun p => if p.1 = id then (id, s) else p)).lookup j = t.lookup j := by
  intro t
  induction t with
  | nil => simp
  | cons p t ih =>
    obtain ⟨k, v⟩ := p
    by_cases hk : k = id
    · subst hk
      have hbeq : (j == k) = false := by simp [hne]
      have hhead : (if (k, v).1 = k then (k, s) else (k, v)) = (k, s) := if_pos rfl
      rw [List.map_cons, hhead]
      simp only [List.lookup, hbeq, ih]
    · have hhead : (if (k, v).1 = id then (id, s) else (k, v)) = (k, v) := if_neg hk
      rw [List.map_cons, hhead]
      by_cases hjk : j = k
      · subst hjk
        simp [List.lookup]
      · have hbeq : (j == k) = false := by simp [hjk]
        simp only [List.lookup, hbeq, ih]

theorem setStatus_cons_ne {t : StatusMap} {k : String} {v : Status}
    {id : String} {s : Status} (h : k ≠ id) :
    setStatus ((k, v) :: t) id s = (k, v) :: setStatus t id s := by
  have hbeq : (id == k) = false := by simp [Ne.symm h]
  unfold setStatus
  simp only [List.lookup, hbeq]
  by_cases ht : (List.lookup id t).isSome
  · rw [if_pos ht, if_pos ht, List.map_cons,
      show (if (k, v).1 = id then (id, s) else (k, v)) = (k, v) from if_neg h]
  · rw [if_neg ht, if_neg ht, List.cons_append]

theorem lookup_setStatus_self (id : String) (s : Status) :
    ∀ (m : StatusMap), (setStatus m id s).lookup id = some s := by
  intro m
  induction m with
  | nil => simp [setStatus, List.lookup]
  | cons p t ih =>
    obtain ⟨k, v⟩ := p
    by_cases hk : k = id
    · subst hk
      unfold setStatus
      have hsome : (List.lookup k ((k, v) :: t)).isSome := by
        simp [List.lookup]
      rw [if_pos hsome, List.map_cons,
        show (if (k, v).1 = k then (k, s) else (k, v)) = (k, s) from if_pos rfl]
      simp [List.lookup]
    · rw [setStatus_cons_ne hk]
      have hbeq : (id == k) = false := by simp [Ne.symm hk]
      simp only [List.lookup, hbeq, ih]

theorem lookup_setStatus_ne {j id : String} (hne : j ≠ id) (s : Status) :
    ∀ (m : StatusMap), (setStatus m id s).lookup j = m.lookup j := by
  intro m
  unfold setStatus
  by_cases hm : (m.lookup id).isSome
  · rw [if_pos hm, lookup_map_overwrite hne]
  · rw [if_neg hm]
    induction m with
    | nil =>
      have hbeq : (j == id) = false := by simp [hne]
      simp [List.lookup, hbeq]
    | cons p t ih =>
      obtain ⟨k, v⟩ := p
      by_cases hjk : j = k
      · subst hjk
        simp [List.lookup]
      · have hbeq : (j == k) = false := by simp [hjk]
        simp only [List.cons_append, List.lookup, hbeq]
        exact ih (by
          intro hsome
          exact hm (by
            by_cases hik : id = k
            · subst hik; simp [List.lookup]
            · have hbeq2 : (id == k) = false := by simp [hik]
              simpa [List.lookup, hbeq2] using hsome))

theorem lookup_foldl_setStatus (ns : Status) :
    ∀ (mems : List GroupMember) (m : StatusMap) (j : String),
      (mems.foldl (fun m mem => setStatus m mem.findingId ns) m).lookup j =
        if j ∈ mems.map (fun mem => mem.findingId) then some ns else m.lookup j := by
  intro mems
  induction mems with
  | nil => intro m j; simp
  | cons mem rest ih =>
    intro m j
    simp only [List.foldl_cons, List.map_cons, List.mem_cons, ih]
    by_cases hrest : j ∈ rest.map (fun mem => mem.findingId)
    · simp [hrest]
    · by_cases hj : j = mem.findingId
      · subst hj
        simp [hrest, lookup_setStatus_self]
      · simp [hrest, hj, lookup_setStatus_ne hj]

/-- C10: the group bulk edit recomputes the filtered, category-filtered,
grouped view; when no group in it carries the key the status map is
unchanged; otherwise exactly the member ids of that group are set to the
new status and every other id keeps its entry. -/
theorem applyGroupStatusChange_frame (fs : List Finding) (flt : Filters)
    (cat : String) (m : StatusMap) (groupKey : String) (ns : Status) :
    (((groupFindings (categoryFiltered fs flt m cat)).find?
        (fun g => g.key == groupKey)) = none →
      applyGroupStatusChange fs flt cat m groupKey ns = m) ∧
    (∀ g, (groupFindings (categoryFiltered fs flt m cat)).find?
        (fun g => g.key == groupKey) = some g →
      (∀ id, id ∈ g.findings.map (fun mem => mem.findingId) →
        (applyGroupStatusChange fs flt cat m groupKey ns).lookup id = some ns) ∧
      (∀ id, id ∉ g.findings.map (fun mem => mem.findingId) →
        (applyGroupStatusChange fs flt cat m groupKey ns).lookup id = m.lookup id)) := by
  constructor
  · intro hnone
    unfold applyGroupStatusChange
    dsimp only
    rw [hnone]
  · intro g hg
    unfold applyGroupStatusChange
    dsimp only
    rw [hg]
    constructor
    · intro id hid
      rw [lookup_foldl_setStatus]
      rw [if_pos hid]
    · intro id hid
      rw [lookup_foldl_setStatus]
      rw [if_neg hid]

/-- C10 witness: a concrete one-group view is set to the new status. -/
theorem applyGroupStatusChange_frame_witness :
    (groupFindings (categoryFiltered [{ code := "E1-001", contract := "K1" }] {} [] "all")).find?
        (fun g => g.key == getGroupKey { code := "E1-001", contract := "K1" }) =
      some (mkGroup 0 { code := "E1-001", contract := "K1" }) ∧
    (applyGroupStatusChange [{ code := "E1-001", contract := "K1" }] {} "all" []
        (getGroupKey { code := "E1-001", contract := "K1" }) .OPGELOST).lookup
      (generateFindingId { code := "E1-001", contract := "K1" } 0) = some .OPGELOST := by
  refine ⟨by decide, ?_⟩
  refine ((applyGroupStatusChange_frame [{ code := "E1-001", contract := "K1" }] {} "all" []
      (getGroupKey { code := "E1-001", contract := "K1" }) .OPGELOST).2
    (mkGroup 0 { code := "E1-001", contract := "K1" }) (by decide)).1
    (generateFindingId { code := "E1-001", contract := "K1" } 0) (by decide)

/-! ## C3: what feeds the theme dominant status -/

/-- C3 counterexample: the theme dominant status is computed over the
currently filtered view, so changing the category selection changes the
"premie" theme's dominant status from OPEN to GEACCEPTEERD. -/
theorem themaDominant_depends_on_filter :
    themaDominantPipeline [c3finding₁, c3finding₂] {} c3statuses "all" "premie" =
      .OPEN ∧
    themaDominantPipeline [c3finding₁, c3finding₂] {} c3statuses "inhoudelijk"
        "premie" = .GEACCEPTEERD ∧
    Status.OPEN ≠ Status.GEACCEPTEERD := by
  refine ⟨?_, ?_, by decide⟩
  · simp only [themaDominantPipeline, sortedGroupsPipeline, sortGroups]
    rw [show groupFindings (categoryFiltered [c3finding₁, c3finding₂] {} c3statuses "all") =
      [{ key := "E2-002||mismatch", code := "E2-002", label := "",
         omschrijving := "mismatch", severity := "", criticality := "AANDACHT",
         category := "inhoudelijk", entiteit := "", engine := "", thema := "premie",
         findings := [⟨"K1::E2-002::0", 0, c3finding₁⟩, ⟨"K2::E2-002::1", 1, c3finding₂⟩] }]
      from by decide]
    rw [List.mergeSort_singleton]
    decide
  · simp only [themaDominantPipeline, sortedGroupsPipeline, sortGroups]
    rw [show groupFindings
        (categoryFiltered [c3finding₁, c3finding₂] {} c3statuses "inhoudelijk") =
      [{ key := "E2-002||mismatch", code := "E2-002", label := "",
         omschrijving := "mismatch", severity := "", criticality := "AANDACHT",
         category := "inhoudelijk", entiteit := "", engine := "", thema := "premie",
         findings := [⟨"K1::E2-002::0", 0, c3finding₁⟩] }]
      from by decide]
    rw [List.mergeSort_singleton]
    decide

theorem lookupCount_bumpCount (s t : Status) :
    ∀ (acc : List (Status × Nat)),
      lookupCount (bumpCount acc s) t =
        lookupCount acc t + (if s = t then 1 else 0) := by
  intro acc
  induction acc with
  | nil =>
    by_cases hst : s = t
    · subst hst; simp [bumpCount, lookupCount, List.lookup]
    · have hbeq : (t == s) = false := by simp [Ne.symm hst]
      simp [bumpCount, lookupCount, List.lookup, hbeq, hst]
  | cons p rest ih =>
    obtain ⟨k, c⟩ := p
    by_cases hks : k = s
    · subst hks
      simp only [bumpCount, if_pos rfl]
      by_cases htk : t = k
      · subst htk
        simp [lookupCount, List.lookup]
      · have hbeq : (t == k) = false := by simp [htk]
        have hkt : ¬(k = t) := fun h => htk h.symm
        simp [lookupCount, List.lookup, hbeq, hkt]
    · simp only [bumpCount, if_neg hks]
      by_cases htk : t = k
      · subst htk
        have hst : ¬(s = t) := fun h => hks h.symm
        simp [lookupCount, List.lookup, hst]
      · have hbeq : (t == k) = false := by simp [htk]
        simp only [lookupCount, List.lookup, hbeq] at ih ⊢
        exact ih

theorem lookupCount_foldl_bumpCount (t : Status) :
    ∀ (l : List Status) (acc : List (Status × Nat)),
      lookupCount (l.foldl bumpCount acc) t = lookupCount acc t + l.count t := by
  intro l
  induction l with
  | nil => intro acc; simp
  | cons s rest ih =>
    intro acc
    simp only [List.foldl_cons, ih, lookupCount_bumpCount, List.count_cons,
      beq_iff_eq]
    omega

theorem lookupCount_themaStatusCounts (m : StatusMap) (thema : String) :
    ∀ (gs : List Group) (st : Status),
      lookupCount (themaStatusCounts gs m thema) st =
        (groupMemberStatuses m thema gs).count st := by
  have hgen : ∀ (gs : List Group) (acc : List (Status × Nat)) (st : Status),
      lookupCount (gs.foldl (fun acc g =>
          if g.thema == thema then
            g.findings.foldl (fun acc mem => bumpCount acc (statusOf m mem.findingId)) acc
          else acc) acc) st =
        lookupCount acc st + (groupMemberStatuses m thema gs).count st := by
    intro gs
    induction gs with
    | nil => intro acc st; simp [groupMemberStatuses]
    | cons g gs ih =>
      intro acc st
      simp only [List.foldl_cons]
      by_cases hg : (g.thema == thema) = true
      · rw [if_pos hg, ih]
        rw [show g.findings.foldl (fun acc mem => bumpCount acc (statusOf m mem.findingId)) acc
            = (g.findings.map (fun mem => statusOf m mem.findingId)).foldl bumpCount acc
          from (List.foldl_map _ _ _ _).symm]
        rw [lookupCount_foldl_bumpCount]
        unfold groupMemberStatuses
        rw [List.filter_cons, if_pos hg, List.flatMap_cons, List.count_append]
        omega
      · rw [if_neg hg, ih]
        unfold groupMemberStatuses
        rw [List.filter_cons, if_neg hg]
  intro gs st
  have := hgen gs [] st
  simpa [themaStatusCounts, lookupCount] using this

theorem count_groupMemberStatuses_perm (m : StatusMap) (thema : String)
    {gs₁ gs₂ : List Group} (h : gs₁.Perm gs₂) (st : Status) :
    (groupMemberStatuses m thema gs₁).count st =
      (groupMemberStatuses m thema gs₂).count st := by
  unfold groupMemberStatuses
  exact ((h.filter _).flatMap_right _).count_eq st

theorem groupFindings_append_singleton (l : List (Nat × Finding)) (p : Nat × Finding) :
    groupFindings (l ++ [p]) = addFinding (groupFindings l) p.1 p.2 := by
  simp [groupFindings, List.foldl_append]

theorem mem_addToGroup_rep {key : String} {mem : GroupMember} {g' : Group} :
    ∀ {acc : List Group}, g' ∈ addToGroup key mem acc →
      ∃ g ∈ acc, g'.key = g.key ∧ g'.thema = g.thema := by
  intro acc
  induction acc with
  | nil => intro h; simp [addToGroup] at h
  | cons g gs ih =>
    intro h
    simp only [addToGroup] at h
    by_cases hk : (g.key == key) = true
    · rw [if_pos hk] at h
      rcases List.mem_cons.mp h with rfl | hmem
      · exact ⟨g, List.mem_cons_self _ _, rfl, rfl⟩
      · exact ⟨g', List.mem_cons_of_mem _ hmem, rfl, rfl⟩
    · rw [if_neg hk] at h
      rcases List.mem_cons.mp h with rfl | hmem
      · exact ⟨g', List.mem_cons_self _ _, rfl, rfl⟩
      · obtain ⟨g₀, hg₀, hkey, hth⟩ := ih hmem
        exact ⟨g₀, List.mem_cons_of_mem _ hg₀, hkey, hth⟩

theorem groupFindings_rep :
    ∀ (l : List (Nat × Finding)) (g : Group), g ∈ groupFindings l →
      ∃ p ∈ l, g.key = getGroupKey p.2 ∧ g.thema = getThema p.2 := by
  intro l
  induction l using List.reverseRecOn with
  | nil => intro g hg; simp [groupFindings] at hg
  | append_singleton l p ih =>
    intro g hg
    rw [groupFindings_append_singleton] at hg
    unfold addFinding at hg
    dsimp only at hg
    by_cases hany : ((groupFindings l).any (fun g => g.key == getGroupKey p.2)) = true
    · rw [if_pos hany] at hg
      obtain ⟨g₀, hg₀, hkey, hth⟩ := mem_addToGroup_rep hg
      obtain ⟨q, hq, hk, ht⟩ := ih g₀ hg₀
      exact ⟨q, List.mem_append_left _ hq, hkey.trans hk, hth.trans ht⟩
    · rw [if_neg hany] at hg
      rcases List.mem_append.mp hg with hmem | hmem
      · obtain ⟨q, hq, hk, ht⟩ := ih g hmem
        exact ⟨q, List.mem_append_left _ hq, hk, ht⟩
      · rw [List.mem_singleton.mp hmem]
        exact ⟨p, List.mem_append_right _ (List.mem_singleton_self _), rfl, rfl⟩

theorem getGroupKey_code_inj {f₁ f₂ : Finding} (h₁ : pipeFree f₁.code)
    (h₂ : pipeFree f₂.code) (h : getGroupKey f₁ = getGroupKey f₂) :
    f₁.code = f₂.code := by
  have hd := congrArg String.data h
  simp only [getGroupKey, String.data_append,
    show ("|" : String).data = ['|'] from rfl, List.append_assoc,
    List.singleton_append] at hd
  exact String.ext (append_sep_inj h₁ h₂ hd).1

theorem getThema_eq_of_code {f₁ f₂ : Finding} (h : f₁.code = f₂.code) :
    getThema f₁ = getThema f₂ := by
  unfold getThema
  rw [h]

theorem count_singleton_status (x st : Status) :
    List.count st [x] = if x = st then 1 else 0 := by
  rw [List.count_singleton]
  by_cases h : x = st
  · simp [h]
  · simp [h]

theorem count_gms_addToGroup (m : StatusMap) (thema key : String)
    (mem : GroupMember) (themaF : String) (st : Status) :
    ∀ (acc : List Group),
      (∀ g ∈ acc, g.key = key → g.thema = themaF) →
      acc.any (fun g => g.key == key) = true →
      (groupMemberStatuses m thema (addToGroup key mem acc)).count st =
        (groupMemberStatuses m thema acc).count st +
          (if themaF = thema ∧ statusOf m mem.findingId = st then 1 else 0) := by
  intro acc
  induction acc with
  | nil => intro _ hany; simp at hany
  | cons g gs ih =>
    intro hinv hany
    by_cases hk : (g.key == key) = true
    · simp only [addToGroup, if_pos hk]
      have hgthema : g.thema = themaF :=
        hinv g (List.mem_cons_self _ _) (by simpa using hk)
      unfold groupMemberStatuses
      by_cases ht : (g.thema == thema) = true
      · rw [List.filter_cons, List.filter_cons, if_pos ht, if_pos ht,
          List.flatMap_cons, List.flatMap_cons]
        simp only [List.map_append, List.map_cons, List.map_nil,
          List.count_append]
        have hcond : themaF = thema ∧ statusOf m mem.findingId = st ↔
            statusOf m mem.findingId = st := by
          constructor
          · exact fun h => h.2
          · intro h
            exact ⟨by rw [← hgthema]; exact beq_iff_eq.mp ht, h⟩
        by_cases hst : statusOf m mem.findingId = st
        · rw [if_pos (hcond.mpr hst), count_singleton_status, if_pos hst]
          omega
        · rw [if_neg (fun h => hst (hcond.mp h)), count_singleton_status,
            if_neg hst]
          omega
      · rw [List.filter_cons, List.filter_cons, if_neg ht, if_neg ht]
        rw [if_neg (by
          rintro ⟨h1, -⟩
          exact ht (by rw [hgthema, h1]; exact beq_self_eq_true _))]
        omega
    · simp only [addToGroup, if_neg hk]
      have hany' : gs.any (fun g => g.key == key) = true := by
        rcases List.any_eq_true.mp hany with ⟨g₀, hg₀, hkey⟩
        rcases List.mem_cons.mp hg₀ with rfl | hmem
        · exact absurd hkey hk
        · exact List.any_eq_true.mpr ⟨g₀, hmem, hkey⟩
      have hinv' : ∀ g' ∈ gs, g'.key = key → g'.thema = themaF :=
        fun g' hg' => hinv g' (List.mem_cons_of_mem _ hg')
      unfold groupMemberStatuses
      by_cases ht : (g.thema == thema) = true
      · rw [List.filter_cons, List.filter_cons, if_pos ht, if_pos ht,
          List.flatMap_cons, List.flatMap_cons, List.count_append,
          List.count_append]
        have := ih hinv' hany'
        unfold groupMemberStatuses at this
        omega
      · rw [List.filter_cons, List.filter_cons, if_neg ht, if_neg ht]
        have := ih hinv' hany'
        unfold groupMemberStatuses at this
        exact this

theorem count_gms_groupFindings (m : StatusMap) (thema : String) :
    ∀ (l : List (Nat × Finding)),
      (∀ p ∈ l, pipeFree p.2.code) →
      ∀ (st : Status),
        (groupMemberStatuses m thema (groupFindings l)).count st =
          ((l.filter (fun p => getThema p.2 == thema)).map
            (fun p => statusOf m (generateFindingId p.2 p.1))).count st := by
  intro l
  induction l using List.reverseRecOn with
  | nil => intro _ st; simp [groupFindings, groupMemberStatuses]
  | append_singleton l p ih =>
    intro hcode st
    obtain ⟨i, f⟩ := p
    rw [groupFindings_append_singleton]
    have hcodel : ∀ q ∈ l, pipeFree q.2.code :=
      fun q hq => hcode q (List.mem_append_left _ hq)
    have hcodef : pipeFree f.code :=
      hcode (i, f) (List.mem_append_right _ (List.mem_singleton_self _))
    have hsingle :
        (((([(i, f)] : List (Nat × Finding)).filter
            (fun p => getThema p.2 == thema)).map
          (fun p => statusOf m (generateFindingId p.2 p.1))).count st) =
        (if getThema f = thema ∧ statusOf m (generateFindingId f i) = st
          then 1 else 0) := by
      by_cases hth : (getThema f == thema) = true
      · rw [List.filter_cons, if_pos hth, List.filter_nil]
        simp only [List.map_cons, List.map_nil]
        rw [count_singleton_status]
        by_cases hst : statusOf m (generateFindingId f i) = st
        · rw [if_pos hst, if_pos ⟨beq_iff_eq.mp hth, hst⟩]
        · rw [if_neg hst, if_neg (fun h => hst h.2)]
      · rw [List.filter_cons, if_neg hth, List.filter_nil]
        rw [if_neg (fun h => hth (by simp [h.1]))]
        simp
    rw [List.filter_append, List.map_append, List.count_append, ← ih hcodel st,
      hsingle]
    unfold addFinding
    dsimp only
    by_cases hany : ((groupFindings l).any (fun g => g.key == getGroupKey f)) = true
    · rw [if_pos hany]
      have hinv : ∀ g ∈ groupFindings l, g.key = getGroupKey f →
          g.thema = getThema f := by
        intro g hg hkey
        obtain ⟨q, hq, hk, hth⟩ := groupFindings_rep l g hg
        have hkk : getGroupKey q.2 = getGroupKey f := by rw [← hk, hkey]
        have hcq : q.2.code = f.code :=
          getGroupKey_code_inj (hcodel q hq) hcodef hkk
        rw [hth, getThema_eq_of_code hcq]
      rw [count_gms_addToGroup m thema (getGroupKey f)
        ⟨generateFindingId f i, i, f⟩ (getThema f) st (groupFindings l) hinv hany]
    · rw [if_neg hany]
      unfold groupMemberStatuses
      rw [List.filter_append, List.flatMap_append, List.count_append]
      congr 1
      by_cases hth : ((mkGroup i f).thema == thema) = true
      · rw [List.filter_cons, if_pos hth, List.filter_nil, List.flatMap_cons]
        have hth' : getThema f = thema := beq_iff_eq.mp hth
        simp only [mkGroup, List.map_cons, List.map_nil, List.flatMap_nil,
          List.append_nil]
        rw [count_singleton_status]
        by_cases hst : statusOf m (generateFindingId f i) = st
        · rw [if_pos hst, if_pos ⟨hth', hst⟩]
        · rw [if_neg hst, if_neg (fun h => hst h.2)]
      · rw [List.filter_cons, if_neg hth, List.filter_nil]
        rw [if_neg (fun h => hth (by simp [mkGroup, h.1]))]
        simp

/-- C3 (amended): the theme-level dominant status is computed over the
findings of the currently filtered view (generic filters, then category
selection) whose theme matches: when error codes contain no `|`, the
status counter handed to `getThemaDominantStatus` for a theme counts
exactly the statuses of the filtered findings with that theme, so
changing a filter can change a theme's dominant status. -/
theorem themaDominant_filtered_view (fs : List Finding) (flt : Filters)
    (m : StatusMap) (cat thema : String)
    (hcode : ∀ f ∈ fs, pipeFree f.code) :
    ∀ st, lookupCount
        (themaStatusCounts (sortedGroupsPipeline fs flt m cat) m thema) st =
      (((categoryFiltered fs flt m cat).filter
          (fun p => getThema p.2 == thema)).map
        (fun p => statusOf m (generateFindingId p.2 p.1))).count st := by
  intro st
  rw [lookupCount_themaStatusCounts]
  have hperm : (sortedGroupsPipeline fs flt m cat).Perm
      (groupFindings (categoryFiltered fs flt m cat)) := by
    simp only [sortedGroupsPipeline, sortGroups]
    exact List.mergeSort_perm _ _
  rw [count_groupMemberStatuses_perm m thema hperm st]
  refine count_gms_groupFindings m thema _ ?_ st
  intro p hp
  apply hcode
  have h1 : p ∈ filterFindings fs flt m := List.mem_of_mem_filter hp
  have h2 : p ∈ withIndexFrom 0 fs := List.mem_of_mem_filter h1
  obtain ⟨k, a⟩ := p
  obtain ⟨j, -, hj⟩ := mem_withIndexFrom.mp h2
  exact List.getElem?_mem hj

/-- C3 witness: the count characterization at the counterexample's data. -/
theorem themaDominant_filtered_view_witness :
    (∀ f ∈ [c3finding₁, c3finding₂], pipeFree f.code) ∧
    lookupCount
        (themaStatusCounts
          (sortedGroupsPipeline [c3finding₁, c3finding₂] {} c3statuses "inhoudelijk")
          c3statuses "premie") .GEACCEPTEERD =
      (((categoryFiltered [c3finding₁, c3finding₂] {} c3statuses "inhoudelijk").filter
          (fun p => getThema p.2 == "premie")).map
        (fun p => statusOf c3statuses (generateFindingId p.2 p.1))).count
        .GEACCEPTEERD := by
  refine ⟨by decide, ?_⟩
  exact themaDominant_filtered_view [c3finding₁, c3finding₂] {} c3statuses
    "inhoudelijk" "premie" (by decide) .GEACCEPTEERD

end Sivi
